import Mathlib

/-!
Verification of the Hist command-history fuzzy-search tool.

The Python sources are shallowly embedded below:
* `history_loader.py` — `HistoryLoader.load_history`, `filter_history`,
  `_fuzzy_match` (fuzzy subsequence matcher);
* `hist.py` — `HistUI` interactive loop: the selection state machine
  (query, selected index, filtered view) and its transitions;
* `runner.py` — `CommandRunner.execute` and `_log_command`.

Commands are modelled as `String`, indices as `Int` (Python integers),
and the interactive loop as a step function on a state record driven by
decoded key events.
-/

namespace Hist

/-- Python `str.lower()` applied to a command string, modelled as a
character-wise lowercase map (`history_loader.py` uses it only for
case-insensitive comparison). -/
def py_lower (s : String) : String := ⟨s.data.map Char.toLower⟩

/-- The scanning loop of `HistoryLoader._fuzzy_match`
(`history_loader.py`, lines 148-155): walk the text left to right,
advancing a cursor over the pattern on every character equal to the
cursor's pattern character; succeed exactly when the whole pattern is
consumed.  The state is (remaining text, remaining pattern). -/
def fuzzy_go : List Char → List Char → Bool
  | _, [] => true
  | [], _ :: _ => false
  | c :: text, p :: ps => if c = p then fuzzy_go text ps else fuzzy_go text (p :: ps)

/-- `HistoryLoader._fuzzy_match(text, pattern)` (`history_loader.py`,
lines 134-155): empty pattern matches immediately, otherwise run the
scanning loop. -/
def fuzzy_match (text pattern : String) : Bool :=
  if pattern.data.isEmpty then true else fuzzy_go text.data pattern.data

/-- The matcher as specified at the `filter_history` call site
(`history_loader.py`, lines 124-129): both candidate and pattern are
lowercased before the fuzzy scan. -/
def matches_fn (candidate pattern : String) : Bool :=
  fuzzy_match (py_lower candidate) (py_lower pattern)

/-- `HistoryLoader.filter_history(history, query)` (`history_loader.py`,
lines 110-132): an empty query returns `history` itself; otherwise keep,
in order, the commands whose lowercasing fuzzy-matches the lowercased
query. -/
def filter_history (history : List String) (query : String) : List String :=
  if query = "" then history
  else history.filter (fun cmd => fuzzy_match (py_lower cmd) (py_lower query))

/-- The deduplication loop of `HistoryLoader.load_history`
(`history_loader.py`, lines 50-56): iterate over the reversed command
list, appending each non-empty command that has not been seen yet.  The
accumulator plays the role of both `deduplicated` and the `seen` set
(they always hold the same command strings). -/
def dedup_loop : List String → List String → List String
  | [], acc => acc
  | c :: rest, acc =>
      if c ≠ "" ∧ c ∉ acc then dedup_loop rest (acc ++ [c])
      else dedup_loop rest acc

/-- `HistoryLoader.load_history` (`history_loader.py`, lines 33-64) after
per-file parsing: concatenate the per-source command lists (each ordered
oldest first, as `commands.extend` reads them), deduplicate by scanning
`reversed(commands)`, then `deduplicated.reverse()` the result. -/
def load_history (sources : List (List String)) : List String :=
  let commands := sources.foldl (fun acc src => acc ++ src) []
  let deduplicated := dedup_loop commands.reverse []
  deduplicated.reverse

/-! ### Correctness of the greedy subsequence scan -/

/-- The greedy scan accepts exactly the subsequences of the text. -/
theorem fuzzy_go_iff_sublist (text pattern : List Char) :
    fuzzy_go text pattern = true ↔ pattern.Sublist text := by
  induction text generalizing pattern with
  | nil =>
    cases pattern with
    | nil => simp [fuzzy_go]
    | cons p ps => simp [fuzzy_go]
  | cons c text ih =>
    cases pattern with
    | nil => simp [fuzzy_go]
    | cons p ps =>
      by_cases hcp : c = p
      · subst hcp
        rw [fuzzy_go, if_pos rfl, ih, List.cons_sublist_cons]
      · rw [fuzzy_go, if_neg hcp, ih]
        constructor
        · intro h
          exact h.cons c
        · intro h
          cases h with
          | cons _ h => exact h
          | cons₂ _ h => exact absurd rfl hcp

/-- `fuzzy_match` agrees with the subsequence relation on the character
lists. -/
theorem fuzzy_match_iff_sublist (text pattern : String) :
    fuzzy_match text pattern = true ↔ pattern.data.Sublist text.data := by
  unfold fuzzy_match
  by_cases h : pattern.data.isEmpty
  · simp only [h, if_pos]
    have : pattern.data = [] := by
      cases hd : pattern.data
      · rfl
      · rw [hd] at h; simp [List.isEmpty] at h
    simp [this]
  · simp only [h, if_neg, Bool.false_eq_true, if_false]
    exact fuzzy_go_iff_sublist _ _

/-! ### The selection state machine (`hist.py`, class `HistUI`) -/

/-- The mutable session state of `HistUI`: the current query text, the
highlighted index (`selected_idx`, a Python integer) and the current
filtered view (`filtered_history`).  The loaded `history` never changes
during a session, so it is passed as a parameter to the transitions. -/
structure UIState where
  query : String
  selected_idx : Int
  filtered_history : List String
deriving DecidableEq, Repr

/-- `HistUI.max_display` (`hist.py`, line 33). -/
def max_display : Nat := 15

/-- The state `HistUI.run` (`hist.py`, lines 31-50) enters the interactive
loop with, once `history` has been loaded: `query = ""` and
`selected_idx = 0` from `__init__`, and
`filtered_history = history[:max_display]` from line 50. -/
def init_state (history : List String) : UIState :=
  ⟨"", 0, history.take max_display⟩

/-- `HistUI._update_filter` (`hist.py`, lines 132-141), run after every
query change: recompute the filtered view (`filter_history` when the
query is non-empty, the full history otherwise), then, when the old index
is at or past the new length, reset it to `max(0, len(filtered) - 1)`. -/
def update_filter (history : List String) (s : UIState) : UIState :=
  let filtered := if s.query ≠ "" then filter_history history s.query else history
  let idx := if s.selected_idx ≥ (filtered.length : Int)
             then max 0 ((filtered.length : Int) - 1)
             else s.selected_idx
  ⟨s.query, idx, filtered⟩

/-- `HistUI._move_selection_up` (`hist.py`, lines 143-147). -/
def move_selection_up (s : UIState) : UIState :=
  if s.selected_idx > 0 then ⟨s.query, s.selected_idx - 1, s.filtered_history⟩ else s

/-- `HistUI._move_selection_down` (`hist.py`, lines 148-151). -/
def move_selection_down (s : UIState) : UIState :=
  if s.selected_idx < (s.filtered_history.length : Int) - 1
  then ⟨s.query, s.selected_idx + 1, s.filtered_history⟩ else s

/-- The decoded key events fed to the loop body of
`HistUI._interactive_loop` (`hist.py`, lines 68-97): Ctrl+C, the two
arrow-key escape sequences, Enter (`\r` or `\n`), backspace (`0x7f`),
and a printable character. -/
inductive Event where
  | ctrlC
  | arrowUp
  | arrowDown
  | enter
  | backspace
  | printable (c : Char)
deriving DecidableEq, Repr

/-- Outcome of one iteration of the interactive loop: continue with a new
state, leave the loop via `KeyboardInterrupt` (Ctrl+C), or leave it by
executing the selected command (`break` after `_execute_command`). -/
inductive StepResult where
  | next (s : UIState)
  | interrupted
  | confirmed (cmd : String)
deriving DecidableEq, Repr

/-- One iteration of `HistUI._interactive_loop` (`hist.py`, lines 68-97)
on an already-decoded event.  Enter executes `filtered_history[selected_idx]`
and breaks only when the list is non-empty and the index is in range
(line 87); otherwise the state is left untouched and the loop continues.
Backspace drops the last query character and refilters only when the
query is non-empty; a printable character is appended and refilters. -/
def handle_input (history : List String) (e : Event) (s : UIState) : StepResult :=
  match e with
  | .ctrlC => .interrupted
  | .arrowUp => .next (move_selection_up s)
  | .arrowDown => .next (move_selection_down s)
  | .enter =>
      if s.filtered_history ≠ [] ∧ 0 ≤ s.selected_idx ∧
         s.selected_idx < (s.filtered_history.length : Int)
      then .confirmed (s.filtered_history.getD s.selected_idx.toNat "")
      else .next s
  | .backspace =>
      .next (if s.query ≠ ""
             then update_filter history ⟨s.query.dropRight 1, s.selected_idx, s.filtered_history⟩
             else s)
  | .printable c =>
      .next (update_filter history ⟨s.query.push c, s.selected_idx, s.filtered_history⟩)

/-- States of one session reachable from the initial state through
continuing transitions. -/
inductive Reachable (history : List String) : UIState → Prop where
  | init : Reachable history (init_state history)
  | step : ∀ s e s', Reachable history s →
      handle_input history e s = .next s' → Reachable history s'

/-- The selection invariant of the spec: the index is in
`[0, len(filtered))` when the filtered view is non-empty, and is `0` when
it is empty. -/
def SelInv (s : UIState) : Prop :=
  (s.filtered_history ≠ [] →
    0 ≤ s.selected_idx ∧ s.selected_idx < (s.filtered_history.length : Int)) ∧
  (s.filtered_history = [] → s.selected_idx = 0)

/-! ### The session loop and process exit (`HistUI.run`) -/

/-- How one session run ends, as observed at the process boundary:
`exited c` is a `sys.exit(c)` call, `ranCommand cmd` is the normal break
out of the loop that executes `cmd`, and `pending s` means the supplied
event trace ran out while the loop was still blocked reading input in
state `s`. -/
inductive RunOutcome where
  | exited (code : Nat)
  | ranCommand (cmd : String)
  | pending (s : UIState)
deriving DecidableEq, Repr

/-- The interactive loop of `HistUI._interactive_loop` over a trace of
decoded events.  Ctrl+C raises `KeyboardInterrupt`, which `HistUI.run`
(lines 52-56) catches and turns into `sys.exit(0)`. -/
def session_loop (history : List String) : UIState → List Event → RunOutcome
  | s, [] => .pending s
  | s, e :: rest =>
      match handle_input history e s with
      | .next s' => session_loop history s' rest
      | .interrupted => .exited 0
      | .confirmed cmd => .ranCommand cmd

/-- `HistUI.run` (`hist.py`, lines 37-56): if the loaded history is empty,
print an error and `sys.exit(1)`; otherwise enter the interactive loop
from the initial state. -/
def run (history : List String) (events : List Event) : RunOutcome :=
  if history = [] then .exited 1
  else session_loop history (init_state history) events

/-! ### Command execution and logging (`runner.py`, class `CommandRunner`) -/

/-- A wall-clock instant as `datetime.now()` presents it to `strftime`. -/
structure Timestamp where
  year : Nat
  month : Nat
  day : Nat
  hour : Nat
  minute : Nat
  second : Nat
deriving DecidableEq, Repr

/-- The decimal digit character for `n < 10`. -/
def digit_char (n : Nat) : Char := Char.ofNat (48 + n)

/-- Zero-padded two-digit decimal rendering, as `strftime` produces for
`%m`, `%d`, `%H`, `%M`, `%S` on their in-range values (`n < 100`). -/
def pad2 (n : Nat) : String := ⟨[digit_char (n / 10), digit_char (n % 10)]⟩

/-- Zero-padded four-digit decimal rendering, as `strftime` produces for
`%Y` on years below 10000. -/
def pad4 (n : Nat) : String :=
  ⟨[digit_char (n / 1000), digit_char (n / 100 % 10), digit_char (n / 10 % 10),
    digit_char (n % 10)]⟩

/-- `datetime.now().strftime("%Y-%m-%d %H:%M:%S")` (`runner.py`,
line 61) on a timestamp whose fields are in `strftime`'s rendered
widths. -/
def strftime_ts (t : Timestamp) : String :=
  pad4 t.year ++ "-" ++ pad2 t.month ++ "-" ++ pad2 t.day ++ " " ++
    pad2 t.hour ++ ":" ++ pad2 t.minute ++ ":" ++ pad2 t.second

/-- The log entry built at `runner.py`, line 62:
`f"[\x7btimestamp\x7d] \x7bcommand\x7d\n"`. -/
def log_entry (t : Timestamp) (cmd : String) : String :=
  "[" ++ strftime_ts t ++ "] " ++ cmd ++ "\n"

/-- `CommandRunner._log_command` (`runner.py`, lines 53-70) acting on the
log file's contents.  The file is opened in append mode, so a successful
write appends the entry; the whole body is wrapped in
`try ... except Exception: pass`, so a failing write leaves the file as
it was and the function still returns normally. -/
def log_command (file : String) (t : Timestamp) (cmd : String)
    (write_fails : Bool) : String :=
  if write_fails then file else file ++ log_entry t cmd

/-- `CommandRunner.execute` (`runner.py`, lines 23-51) as its effect on
the log file and its returned success flag: log first when `log` is set,
then run the command (whose exit code is the environment-supplied
`returncode`) and report `returncode == 0`.  The log write's outcome
never alters control flow or the return value. -/
def execute (cmd : String) (log : Bool) (file : String) (t : Timestamp)
    (write_fails : Bool) (returncode : Int) : String × Bool :=
  let file' := if log then log_command file t cmd write_fails else file
  (file', returncode == 0)

/-- The spec's line format `[YYYY-MM-DD HH:MM:SS] <command>\n`, as a
predicate on the timestamp field of the line: nineteen characters,
digits in the date/time positions, with `-`, a space and `:` as
separators. -/
def timestamp_shape : List Char → Bool
  | [y1, y2, y3, y4, c1, m1, m2, c2, d1, d2, c3, h1, h2, c4, n1, n2, c5, s1, s2] =>
      y1.isDigit && y2.isDigit && y3.isDigit && y4.isDigit &&
      m1.isDigit && m2.isDigit && d1.isDigit && d2.isDigit &&
      h1.isDigit && h2.isDigit && n1.isDigit && n2.isDigit &&
      s1.isDigit && s2.isDigit &&
      c1 = '-' && c2 = '-' && c3 = ' ' && c4 = ':' && c5 = ':'
  | _ => false

/-! ### Claims about the fuzzy matcher and the filter engine -/

/-- Claim C3: for every candidate string and every pattern string,
`matches(candidate, pattern)` returns true if and only if the case-folded
pattern is a subsequence of the case-folded candidate; in particular an
empty pattern always matches, and a pattern longer than the candidate
never matches. -/
theorem claim_c3 (candidate pattern : String) :
    (matches_fn candidate pattern = true ↔
      (pattern.data.map Char.toLower).Sublist (candidate.data.map Char.toLower)) ∧
    matches_fn candidate "" = true ∧
    (candidate.data.length < pattern.data.length →
      matches_fn candidate pattern = false) := by
  have hpl : ∀ s : String, (py_lower s).data = s.data.map Char.toLower := fun s => rfl
  refine ⟨?_, ?_, ?_⟩
  · rw [matches_fn, fuzzy_match_iff_sublist, hpl, hpl]
  · rfl
  · intro hlen
    cases hm : matches_fn candidate pattern with
    | false => rfl
    | true =>
      exfalso
      rw [matches_fn, fuzzy_match_iff_sublist, hpl, hpl] at hm
      have hle := hm.length_le
      simp only [List.length_map] at hle
      omega

theorem claim_c3_witness : matches_fn "ab" "abc" = false :=
  (claim_c3 "ab" "abc").2.2 (by decide)

/-- Claim C4: for every history list and every query string,
`filter(history, query)` returns exactly those commands of history for
which the fuzzy matcher succeeds, in the original relative order; and an
empty query returns the history itself, unchanged. -/
theorem claim_c4 (history : List String) (query : String) :
    filter_history history query = history.filter (fun cmd => matches_fn cmd query) ∧
    filter_history history "" = history := by
  constructor
  · by_cases hq : query = ""
    · subst hq
      rw [filter_history, if_pos rfl]
      symm
      apply List.filter_eq_self.mpr
      intro cmd _
      rfl
    · rw [filter_history, if_neg hq]
      rfl
  · rw [filter_history, if_pos rfl]

/-! ### Claims about the initial state and history loading -/

/-- Claim C1 counterexample: with sixteen loaded commands
(`max_display = 15` of them shown), the initial filtered sequence is NOT
the full loaded history — `HistUI.run` truncates it with
`self.history[:self.max_display]`. -/
theorem claim_c1_counterexample :
    (init_state ["c01", "c02", "c03", "c04", "c05", "c06", "c07", "c08",
        "c09", "c10", "c11", "c12", "c13", "c14", "c15", "c16"]).filtered_history ≠
      ["c01", "c02", "c03", "c04", "c05", "c06", "c07", "c08",
        "c09", "c10", "c11", "c12", "c13", "c14", "c15", "c16"] := by
  decide

/-- Claim C1 (amended): at session start, after history is loaded, the
state entering the interactive loop has `query = ""`,
`selected_index = 0`, and `filtered` equal to the first `max_display`
(15) entries of the loaded history — the full history exactly when it
has at most 15 entries. -/
theorem claim_c1 (history : List String) :
    (init_state history).query = "" ∧
    (init_state history).selected_idx = 0 ∧
    (init_state history).filtered_history = history.take max_display :=
  ⟨rfl, rfl, rfl⟩

/-- Claim C2: evaluation at the failing input.  With a single source
holding `"alpha"` (older) then `"bravo"` (most recent), `load_history`
returns `["alpha", "bravo"]` — oldest first — not the most-recent-first
order `["bravo", "alpha"]` the claim (and the code's own comment
"Reverse to get most recent first") requires. -/
theorem claim_c2_failing_input :
    load_history [["alpha", "bravo"]] = ["alpha", "bravo"] ∧
    load_history [["alpha", "bravo"]] ≠ ["bravo", "alpha"] := by
  constructor
  · rfl
  · decide

/-! ### Frame claim about the arrow-key transitions -/

/-- Claim C10: move-up and move-down leave the query string and the
filtered sequence unchanged; only the selected index may change. -/
theorem claim_c10 (s : UIState) :
    (move_selection_up s).query = s.query ∧
    (move_selection_up s).filtered_history = s.filtered_history ∧
    (move_selection_down s).query = s.query ∧
    (move_selection_down s).filtered_history = s.filtered_history := by
  unfold move_selection_up move_selection_down
  refine ⟨?_, ?_, ?_, ?_⟩ <;> split <;> rfl

/-! ### Claims about move-down, confirm and the exit codes -/

/-- Claim C6 counterexample: in the state with query `"a"`, selected
index `0` and an empty filtered view, move-down leaves the index at `0`,
whereas the claimed formula `min(len(filtered) - 1, selected_index + 1)`
evaluates to `-1`. -/
theorem claim_c6_counterexample :
    (move_selection_down ⟨"a", 0, ([] : List String)⟩).selected_idx ≠
      min ((([] : List String).length : Int) - 1) (0 + 1) := by
  decide

/-- Claim C6 (amended): for every state satisfying the selection
invariant, move-down sets `selected_index` to
`min(len(filtered) - 1, selected_index + 1)` when `filtered` is
non-empty, and leaves the state unchanged (the index stays `0`) when
`filtered` is empty. -/
theorem claim_c6 (s : UIState) (hinv : SelInv s) :
    move_selection_down s =
      if s.filtered_history = [] then s
      else ⟨s.query, min ((s.filtered_history.length : Int) - 1) (s.selected_idx + 1),
            s.filtered_history⟩ := by
  obtain ⟨hne, hemp⟩ := hinv
  by_cases hf : s.filtered_history = []
  · rw [if_pos hf]
    unfold move_selection_down
    rw [if_neg]
    rw [hf, hemp hf]
    decide
  · rw [if_neg hf]
    obtain ⟨h0, hlt⟩ := hne hf
    unfold move_selection_down
    by_cases hmove : s.selected_idx < (s.filtered_history.length : Int) - 1
    · rw [if_pos hmove]
      have : min ((s.filtered_history.length : Int) - 1) (s.selected_idx + 1) =
          s.selected_idx + 1 := by omega
      rw [this]
    · rw [if_neg hmove]
      have : min ((s.filtered_history.length : Int) - 1) (s.selected_idx + 1) =
          s.selected_idx := by omega
      rw [this]

theorem claim_c6_witness :
    move_selection_down ⟨"", 0, ["a", "b"]⟩ = ⟨"", 1, ["a", "b"]⟩ := by
  have h := claim_c6 ⟨"", 0, ["a", "b"]⟩
    ⟨fun _ => by decide, fun hc => absurd hc (by decide)⟩
  rw [if_neg (by decide : ¬ ((["a", "b"] : List String) = []))] at h
  exact h.trans (by decide)

/-- Claim C7: the confirm (Enter) event terminates the session yielding
`filtered[selected_index]` if and only if the filtered view is non-empty
and the index is in range; otherwise it changes nothing and the session
continues with the same state. -/
theorem claim_c7 (history : List String) (s : UIState) (cmd : String) :
    (handle_input history Event.enter s = .confirmed cmd ↔
      (s.filtered_history ≠ [] ∧ 0 ≤ s.selected_idx ∧
        s.selected_idx < (s.filtered_history.length : Int) ∧
        cmd = s.filtered_history.getD s.selected_idx.toNat "")) ∧
    (¬ (s.filtered_history ≠ [] ∧ 0 ≤ s.selected_idx ∧
        s.selected_idx < (s.filtered_history.length : Int)) →
      handle_input history Event.enter s = .next s) := by
  unfold handle_input
  by_cases hg : s.filtered_history ≠ [] ∧ 0 ≤ s.selected_idx ∧
      s.selected_idx < (s.filtered_history.length : Int)
  · rw [if_pos hg]
    constructor
    · constructor
      · intro h
        injection h with h
        exact ⟨hg.1, hg.2.1, hg.2.2, h.symm⟩
      · rintro ⟨_, _, _, hcmd⟩
        rw [hcmd]
    · intro hn
      exact absurd hg hn
  · rw [if_neg hg]
    constructor
    · constructor
      · intro h
        cases h
      · rintro ⟨h1, h2, h3, _⟩
        exact absurd ⟨h1, h2, h3⟩ hg
    · intro _
      rfl

theorem claim_c7_witness :
    handle_input [] Event.enter ⟨"a", 5, ["x"]⟩ = .next ⟨"a", 5, ["x"]⟩ :=
  (claim_c7 [] ⟨"a", 5, ["x"]⟩ "").2 (by decide)

/-- The interactive loop never produces the exit code reserved for an
empty history: its only `sys.exit` is the interrupt's `sys.exit(0)`. -/
theorem session_loop_ne_exited_one (history : List String) :
    ∀ (events : List Event) (s : UIState),
      session_loop history s events ≠ .exited 1 := by
  intro events
  induction events with
  | nil =>
    intro s h
    cases h
  | cons e rest ih =>
    intro s
    unfold session_loop
    cases handle_input history e s with
    | next s' => exact ih s'
    | interrupted =>
      intro h
      injection h with h
      cases h
    | confirmed c =>
      intro h
      cases h

/-- Claim C9: the process exits with status 1 exactly when no history
could be loaded, and the interrupt event (Ctrl+C) always exits with
status 0, from any state of the loop. -/
theorem claim_c9 (history : List String) (events : List Event) :
    (run history events = .exited 1 ↔ history = []) ∧
    (∀ (s : UIState) (rest : List Event),
      session_loop history s (Event.ctrlC :: rest) = .exited 0) := by
  constructor
  · unfold run
    by_cases hh : history = []
    · rw [if_pos hh]
      simp [hh]
    · rw [if_neg hh]
      constructor
      · intro h
        exact absurd h (session_loop_ne_exited_one history events (init_state history))
      · intro h
        exact absurd h hh
  · intro s rest
    rfl

/-! ### The selection invariant (claim C5) -/

/-- A state satisfying the selection invariant has a non-negative
index. -/
lemma sel_inv_nonneg (s : UIState) (h : SelInv s) : 0 ≤ s.selected_idx := by
  by_cases hf : s.filtered_history = []
  · rw [h.2 hf]
  · exact (h.1 hf).1

/-- The initial state satisfies the selection invariant. -/
lemma sel_inv_init (history : List String) : SelInv (init_state history) := by
  refine ⟨fun hne => ⟨le_refl 0, ?_⟩, fun _ => rfl⟩
  show (0 : Int) < ((history.take max_display).length : Int)
  exact_mod_cast List.length_pos.mpr hne

/-- The selected index after a move-up. -/
lemma move_up_idx (s : UIState) :
    (move_selection_up s).selected_idx =
      if s.selected_idx > 0 then s.selected_idx - 1 else s.selected_idx := by
  unfold move_selection_up
  split <;> rfl

/-- Move-up does not change the filtered view. -/
lemma move_up_filtered (s : UIState) :
    (move_selection_up s).filtered_history = s.filtered_history := by
  unfold move_selection_up
  split <;> rfl

/-- The selected index after a move-down. -/
lemma move_down_idx (s : UIState) :
    (move_selection_down s).selected_idx =
      if s.selected_idx < (s.filtered_history.length : Int) - 1
      then s.selected_idx + 1 else s.selected_idx := by
  unfold move_selection_down
  split <;> rfl

/-- Move-down does not change the filtered view. -/
lemma move_down_filtered (s : UIState) :
    (move_selection_down s).filtered_history = s.filtered_history := by
  unfold move_selection_down
  split <;> rfl

/-- The index clamp performed by `_update_filter` establishes the
selection invariant for any new filtered view, provided the incoming
index is non-negative. -/
lemma sel_inv_clamp (q : String) (filtered : List String) (idx : Int)
    (h0 : 0 ≤ idx) :
    SelInv ⟨q, if idx ≥ (filtered.length : Int)
               then max 0 ((filtered.length : Int) - 1) else idx, filtered⟩ := by
  constructor
  · intro hne
    have hlen : 0 < (filtered.length : Int) := by
      exact_mod_cast List.length_pos.mpr hne
    dsimp only
    split
    · omega
    · omega
  · intro hemp
    dsimp only at hemp ⊢
    have hlen : (filtered.length : Int) = 0 := by rw [hemp]; rfl
    rw [if_pos (by omega : idx ≥ (filtered.length : Int))]
    omega

/-- `_update_filter` re-establishes the selection invariant from any
state with a non-negative index. -/
lemma sel_inv_update_filter (history : List String) (s : UIState)
    (h0 : 0 ≤ s.selected_idx) : SelInv (update_filter history s) :=
  sel_inv_clamp s.query _ s.selected_idx h0

/-- Every continuing transition of the interactive loop preserves the
selection invariant. -/
lemma sel_inv_step (history : List String) (s : UIState) (hinv : SelInv s)
    (e : Event) (s' : UIState)
    (hstep : handle_input history e s = .next s') : SelInv s' := by
  have h0 : 0 ≤ s.selected_idx := sel_inv_nonneg s hinv
  cases e with
  | ctrlC => exact StepResult.noConfusion hstep
  | arrowUp =>
    injection hstep with hs'
    subst hs'
    obtain ⟨hne, hemp⟩ := hinv
    constructor
    · intro hf
      rw [move_up_filtered] at hf
      have h1 := hne hf
      rw [move_up_filtered, move_up_idx]
      constructor <;> split <;> omega
    · intro hf
      rw [move_up_filtered] at hf
      have h2 := hemp hf
      rw [move_up_idx]
      split <;> omega
  | arrowDown =>
    injection hstep with hs'
    subst hs'
    obtain ⟨hne, hemp⟩ := hinv
    constructor
    · intro hf
      rw [move_down_filtered] at hf
      have h1 := hne hf
      rw [move_down_filtered, move_down_idx]
      constructor <;> split <;> omega
    · intro hf
      rw [move_down_filtered] at hf
      have h2 := hemp hf
      have hlen : (s.filtered_history.length : Int) = 0 := by rw [hf]; rfl
      rw [move_down_idx]
      split <;> omega
  | enter =>
    simp only [handle_input] at hstep
    split at hstep
    · exact StepResult.noConfusion hstep
    · injection hstep with hs'
      subst hs'
      exact hinv
  | backspace =>
    injection hstep with hs'
    subst hs'
    split
    · exact sel_inv_update_filter history _ h0
    · exact hinv
  | printable c =>
    injection hstep with hs'
    subst hs'
    exact sel_inv_update_filter history _ h0

/-- Every reachable state of a session satisfies the selection
invariant. -/
lemma reachable_sel_inv (history : List String) (s : UIState)
    (h : Reachable history s) : SelInv s := by
  induction h with
  | init => exact sel_inv_init history
  | step s e s' _ hstep ih => exact sel_inv_step history s ih e s' hstep

/-- Claim C5: after every transition except confirm/cancel (append
printable character, backspace, move up, move down), starting from any
reachable state, `0 ≤ selected_index < len(filtered)` holds whenever
`filtered` is non-empty, and `selected_index = 0` holds whenever
`filtered` is empty. -/
theorem claim_c5 (history : List String) (s : UIState)
    (hreach : Reachable history s) (e : Event) (s' : UIState)
    (_hc : e ≠ Event.ctrlC) (_hent : e ≠ Event.enter)
    (hstep : handle_input history e s = .next s') : SelInv s' :=
  sel_inv_step history s (reachable_sel_inv history s hreach) e s' hstep

theorem claim_c5_witness : SelInv ⟨"", 0, ["ls"]⟩ :=
  claim_c5 ["ls"] (init_state ["ls"]) Reachable.init Event.arrowDown
    ⟨"", 0, ["ls"]⟩ (by decide) (by decide) (by decide)

/-! ### The execution log (claim C8) -/

/-- `digit_char` of a value below ten is a decimal digit character. -/
lemma digit_char_isDigit {n : Nat} (h : n < 10) : (digit_char n).isDigit = true := by
  interval_cases n <;> decide

/-- `digit_char` of a value below ten is not a newline. -/
lemma digit_char_ne_newline {n : Nat} (h : n < 10) : digit_char n ≠ '\n' := by
  interval_cases n <;> decide

/-- String concatenation concatenates the underlying character lists. -/
lemma data_append (a b : String) : (a ++ b).data = a.data ++ b.data := rfl

/-- The character list of the rendered timestamp, spelled out. -/
lemma strftime_ts_data (t : Timestamp) :
    (strftime_ts t).data =
      [digit_char (t.year / 1000), digit_char (t.year / 100 % 10),
       digit_char (t.year / 10 % 10), digit_char (t.year % 10), '-',
       digit_char (t.month / 10), digit_char (t.month % 10), '-',
       digit_char (t.day / 10), digit_char (t.day % 10), ' ',
       digit_char (t.hour / 10), digit_char (t.hour % 10), ':',
       digit_char (t.minute / 10), digit_char (t.minute % 10), ':',
       digit_char (t.second / 10), digit_char (t.second % 10)] := rfl

/-- The character list of a log entry: the bracketed timestamp, the
command, and a final newline. -/
lemma log_entry_data (t : Timestamp) (cmd : String) :
    (log_entry t cmd).data =
      ('[' :: ((strftime_ts t).data ++ ']' :: ' ' :: cmd.data)) ++ ['\n'] := by
  show ['['] ++ (strftime_ts t).data ++ [']', ' '] ++ cmd.data ++ ['\n'] = _
  simp

/-- A rendered in-range timestamp has the `YYYY-MM-DD HH:MM:SS` shape. -/
lemma timestamp_shape_strftime (t : Timestamp) (hy : t.year < 10000)
    (hmo : t.month < 100) (hd : t.day < 100) (hh : t.hour < 100)
    (hmi : t.minute < 100) (hs : t.second < 100) :
    timestamp_shape (strftime_ts t).data = true := by
  rw [strftime_ts_data]
  simp only [timestamp_shape, Bool.and_eq_true, decide_eq_true_eq]
  repeat' apply And.intro
  all_goals first
    | exact digit_char_isDigit (by omega)
    | trivial

/-- The rendered timestamp of an in-range instant contains no newline. -/
lemma strftime_no_newline (t : Timestamp) (hy : t.year < 10000)
    (hmo : t.month < 100) (hd : t.day < 100) (hh : t.hour < 100)
    (hmi : t.minute < 100) (hs : t.second < 100) :
    '\n' ∉ (strftime_ts t).data := by
  rw [strftime_ts_data]
  intro hmem
  simp only [List.mem_cons, List.not_mem_nil, or_false] at hmem
  rcases hmem with h | h | h | h | h | h | h | h | h | h | h | h | h | h | h | h | h | h | h
  all_goals first
    | exact digit_char_ne_newline (by omega) h.symm
    | exact absurd h (by decide)

/-- Claim C8: with logging enabled, a successful execution appends to
the log file exactly one line of the form
`[YYYY-MM-DD HH:MM:SS] <command>` terminated by a newline (append mode:
the old contents are a prefix), and a failing log write leaves the file
unchanged while the caller still gets the command's own result — the
failure is never surfaced. -/
theorem claim_c8 (file : String) (t : Timestamp) (cmd : String)
    (write_fails : Bool) (rc : Int)
    (hy : t.year < 10000) (hmo : t.month < 100) (hd : t.day < 100)
    (hh : t.hour < 100) (hmi : t.minute < 100) (hs : t.second < 100)
    (hcmd : '\n' ∉ cmd.data) :
    (execute cmd true file t false rc).1 = file ++ log_entry t cmd ∧
    log_entry t cmd = "[" ++ strftime_ts t ++ "] " ++ cmd ++ "\n" ∧
    timestamp_shape (strftime_ts t).data = true ∧
    (log_entry t cmd).data.count '\n' = 1 ∧
    (log_entry t cmd).data.getLast? = some '\n' ∧
    (execute cmd true file t write_fails rc).1 =
      (if write_fails then file else file ++ log_entry t cmd) ∧
    (execute cmd true file t write_fails rc).2 =
      (execute cmd true file t false rc).2 := by
  refine ⟨rfl, rfl, timestamp_shape_strftime t hy hmo hd hh hmi hs, ?_, ?_, rfl, rfl⟩
  · have h1 : (strftime_ts t).data.count '\n' = 0 :=
      List.count_eq_zero.mpr (strftime_no_newline t hy hmo hd hh hmi hs)
    have h2 : cmd.data.count '\n' = 0 := List.count_eq_zero.mpr hcmd
    rw [log_entry_data]
    simp [List.count_append, List.count_cons, h1, h2]
  · rw [log_entry_data]
    exact List.getLast?_concat _

theorem claim_c8_witness :
    (execute "ls" true "" ⟨2024, 3, 7, 9, 5, 59⟩ false 0).1 =
      "" ++ log_entry ⟨2024, 3, 7, 9, 5, 59⟩ "ls" :=
  (claim_c8 "" ⟨2024, 3, 7, 9, 5, 59⟩ "ls" true 0 (by decide) (by decide)
    (by decide) (by decide) (by decide) (by decide) (by decide)).1

end Hist
